import Mathlib

/-!
  Verification of the markdown-to-control-bytes transpiler in src/main.rs.

  The program has two parts: a logos-derived lexer (enum Token) and a
  stateful renderer (transpile_markdown, new_line, and the wrap/open/close
  environment functions produced by the def_wrap_env / def_open_env /
  def_close_env macros).  Both are embedded below over List Char; every
  byte the program manipulates is ASCII, so Char stands in for u8.

  Lexer model.  logos performs longest-match over the union of all rules,
  with rule priority breaking ties between equal-length matches; when no
  rule matches at a position the lexer yields an error item covering that
  position and continues, and transpile_markdown drops error items
  (the `if let Ok` in its loop).  Each rule of the enum is embedded as a
  function returning the maximal number of characters it can match at the
  head of the input:
    Bold            token "**"
    Italic          token "*"
    Underline       token "__"
    TopHeader       regex #( +)?
    LowerHeader     regex #{2,}( +)?
    Tag             regex ( ?)\x7b#*.*\x7d          (priority 98)
    RemovableNewline token "\n"
    ActiveNewline   token "\n{2,}"  -- a token attribute, so this is the
                     literal five-character string newline,the character
                     left-brace,'2',',',right-brace and NOT a repetition
    Text            regex [^(\*\*)\*(__)#\n\r\t\f]  (a character class:
                     any single char except ( ) * _ # \n \r \t \f)
    UnorderedList   regex [\-\*+] .+(\n)
    Link            regex \[[^\[\]]+\]\([^\(\)]+\)  (priority 99)
    Codeblock       a regex: optional \n, three backticks, any run of
                     non-backtick chars, three backticks, optional \n
                     (priority 100)
  In all regexes `.` matches any character except newline, and all
  unbounded operators are greedy, so each rule's maximal match at a
  position is unique and computed directly.
-/

set_option maxRecDepth 4000

def ESC : Char := Char.ofNat 27
def FF : Char := Char.ofNat 12
def CR : Char := Char.ofNat 13
def TICK : Char := Char.ofNat 96

/-- The five render flags of struct State (all false in State::default). -/
structure State where
  top_header : Bool
  lower_header : Bool
  bold : Bool
  italic : Bool
  underline : Bool
deriving Repr, DecidableEq

def State.default : State := ⟨false, false, false, false, false⟩

def boldOn : List Char := [ESC, 'E']
def boldOff : List Char := [ESC, 'F']
def italicOn : List Char := [ESC, '4']
def italicOff : List Char := [ESC, '5']
def underlineOn : List Char := [ESC, '-', '1']
def underlineOff : List Char := [ESC, '-', '0']
def topHeaderOpenSeq : List Char := ['\n', '\n', ESC, 'E', ESC, 'w', '1', ESC, 'W', '1']
def topHeaderCloseSeq : List Char := [ESC, 'F', ESC, 'w', '0', ESC, 'W', '0', '\n']
def lowerHeaderOpenSeq : List Char := ['\n', '\n', ESC, 'w', '1']
def lowerHeaderCloseSeq : List Char := [ESC, 'w', '0', '\n']

/-- def_wrap_env!(wrap_bold, bold, ESC E, ESC F): emit the open code when
the flag is off, the close code when it is on, and flip the flag. -/
def wrap_bold (state : State) : State × List Char :=
  ({ state with bold := !state.bold }, if !state.bold then boldOn else boldOff)

def wrap_italic (state : State) : State × List Char :=
  ({ state with italic := !state.italic }, if !state.italic then italicOn else italicOff)

def wrap_underline (state : State) : State × List Char :=
  ({ state with underline := !state.underline },
    if !state.underline then underlineOn else underlineOff)

/-- def_open_env!(open_top_header, top_header, ...): emit the open sequence
and set the flag on the off-to-on transition, otherwise emit nothing. -/
def open_top_header (state : State) : State × List Char :=
  if !state.top_header then ({ state with top_header := true }, topHeaderOpenSeq)
  else (state, [])

/-- def_close_env!(close_top_header, top_header, ...): emit the close
sequence and clear the flag when it is on, otherwise emit nothing. -/
def close_top_header (state : State) : State × List Char :=
  if !state.top_header then (state, [])
  else ({ state with top_header := false }, topHeaderCloseSeq)

def open_lower_header (state : State) : State × List Char :=
  if !state.lower_header then ({ state with lower_header := true }, lowerHeaderOpenSeq)
  else (state, [])

def close_lower_header (state : State) : State × List Char :=
  if !state.lower_header then (state, [])
  else ({ state with lower_header := false }, lowerHeaderCloseSeq)

/-- The variants of enum Token. -/
inductive Token where
  | bold | italic | underline | topHeader | lowerHeader | tag
  | removableNewline | activeNewline | text | unorderedList | link | codeblock
deriving Repr, DecidableEq

/-- One lexer result: Ok(token) with its matched slice, or Err for a
position where no rule matched (logos yields Result items). -/
inductive LexItem where
  | ok : Token → List Char → LexItem
  | err : List Char → LexItem
deriving Repr, DecidableEq

def startsWith : List Char → List Char → Bool
  | [], _ => true
  | _ :: _, [] => false
  | p :: ps, c :: cs => if p = c then startsWith ps cs else false

/-- Characters before the first newline (the span a greedy dot-star can
cover, since the dot does not match newline). -/
def takeLine : List Char → List Char
  | [] => []
  | c :: r => if c = '\n' then [] else c :: takeLine r

def spaceRun : List Char → Nat
  | [] => 0
  | c :: r => if c = ' ' then spaceRun r + 1 else 0

def hashRun : List Char → Nat
  | [] => 0
  | c :: r => if c = '#' then hashRun r + 1 else 0

/-- Index of the last closing brace in the list, if any. -/
def lastBrace : List Char → Option Nat
  | [] => none
  | c :: r =>
    match lastBrace r with
    | some i => some (i + 1)
    | none => if c = '}' then some 0 else none

def takeNotSq : List Char → List Char
  | [] => []
  | c :: r => if c = '[' ∨ c = ']' then [] else c :: takeNotSq r

def takeNotPar : List Char → List Char
  | [] => []
  | c :: r => if c = '(' ∨ c = ')' then [] else c :: takeNotPar r

def takeNotTick : List Char → List Char
  | [] => []
  | c :: r => if c = TICK then [] else c :: takeNotTick r

/-- Membership in the negated character class of the Text rule. -/
def exclText (c : Char) : Prop :=
  c = '(' ∨ c = ')' ∨ c = '*' ∨ c = '_' ∨ c = '#' ∨ c = '\n' ∨ c = CR ∨ c = '\t' ∨ c = FF

instance (c : Char) : Decidable (exclText c) := by unfold exclText; infer_instance

def matchBold (s : List Char) : Option Nat :=
  if startsWith ['*', '*'] s then some 2 else none

def matchItalic (s : List Char) : Option Nat :=
  if startsWith ['*'] s then some 1 else none

def matchUnderline (s : List Char) : Option Nat :=
  if startsWith ['_', '_'] s then some 2 else none

def matchTopHeader : List Char → Option Nat
  | [] => none
  | c :: r => if c = '#' then some (1 + spaceRun r) else none

def matchLowerHeader (s : List Char) : Option Nat :=
  if 2 ≤ hashRun s then some (hashRun s + spaceRun (s.drop (hashRun s))) else none

/-- Maximal match of the Tag rule: an optional leading space, an opening
brace, then (greedily) everything up to the last closing brace on the
line. -/
def matchTag : List Char → Option Nat
  | [] => none
  | c :: r =>
    if c = '{' then (lastBrace (takeLine r)).map (fun j => j + 2)
    else if c = ' ' then
      match r with
      | [] => none
      | d :: r2 => if d = '{' then (lastBrace (takeLine r2)).map (fun j => j + 3) else none
    else none

def matchRemovableNewline (s : List Char) : Option Nat :=
  if startsWith ['\n'] s then some 1 else none

/-- ActiveNewline is declared with a token (not regex) attribute, so it
matches the literal five characters newline, brace, '2', comma, brace. -/
def matchActiveNewline (s : List Char) : Option Nat :=
  if startsWith ['\n', '{', '2', ',', '}'] s then some 5 else none

def matchText : List Char → Option Nat
  | [] => none
  | c :: _ => if exclText c then none else some 1

def matchUnorderedList : List Char → Option Nat
  | a :: b :: r =>
    if a = '-' ∨ a = '*' ∨ a = '+' then
      if b = ' ' then
        let body := takeLine r
        if body.length = 0 then none
        else if startsWith ['\n'] (r.drop body.length) then some (2 + body.length + 1)
        else none
      else none
    else none
  | _ => none

def matchLink : List Char → Option Nat
  | [] => none
  | c :: r =>
    if c = '[' then
      let lab := takeNotSq r
      if lab.length = 0 then none
      else
        match r.drop lab.length with
        | d :: r2 =>
          if d = ']' then
            match r2 with
            | e :: r3 =>
              if e = '(' then
                let tgt := takeNotPar r3
                if tgt.length = 0 then none
                else
                  match r3.drop tgt.length with
                  | f :: _ => if f = ')' then some (lab.length + tgt.length + 4) else none
                  | [] => none
              else none
            | [] => none
          else none
        | [] => none
    else none

def cbCore (r : List Char) : Option Nat :=
  if startsWith [TICK, TICK, TICK] r then
    let content := takeNotTick (r.drop 3)
    let rest := r.drop (3 + content.length)
    if startsWith [TICK, TICK, TICK] rest then
      if startsWith ['\n'] (rest.drop 3) then some (content.length + 7)
      else some (content.length + 6)
    else none
  else none

def matchCodeblock : List Char → Option Nat
  | [] => none
  | c :: r => if c = '\n' then (cbCore r).map (fun n => n + 1) else cbCore (c :: r)

/-- All rules with their match lengths at the head of s, listed in
decreasing priority (explicit priorities 100, 99, 98 first, then the
longer literal tokens; priority only ever decides between equal-length
matches). -/
def ruleMatches (s : List Char) : List (Token × Option Nat) :=
  [(Token.codeblock, matchCodeblock s), (Token.link, matchLink s), (Token.tag, matchTag s),
   (Token.activeNewline, matchActiveNewline s), (Token.unorderedList, matchUnorderedList s),
   (Token.bold, matchBold s), (Token.underline, matchUnderline s),
   (Token.lowerHeader, matchLowerHeader s), (Token.removableNewline, matchRemovableNewline s),
   (Token.italic, matchItalic s), (Token.topHeader, matchTopHeader s),
   (Token.text, matchText s)]

/-- Longest match wins; on equal length the earlier (higher-priority)
rule is kept. -/
def pick (acc : Option (Token × Nat)) (cand : Token × Option Nat) : Option (Token × Nat) :=
  match cand.2 with
  | none => acc
  | some n =>
    match acc with
    | none => some (cand.1, n)
    | some (t, m) => if m < n then some (cand.1, n) else some (t, m)

def bestMatch (s : List Char) : Option (Token × Nat) :=
  (ruleMatches s).foldl pick none

/-- Fuel-indexed scan over the input; every step consumes at least one
character, so length of the input is always enough fuel. -/
def tokenizeF : Nat → List Char → List LexItem
  | _, [] => []
  | 0, _ :: _ => []
  | f + 1, c :: rest =>
    match bestMatch (c :: rest) with
    | some (t, n) => LexItem.ok t ((c :: rest).take n) :: tokenizeF f ((c :: rest).drop n)
    | none => LexItem.err [c] :: tokenizeF f rest

def tokenize (s : List Char) : List LexItem := tokenizeF s.length s

/-- fn new_line: close both header environments, then append a line feed
for ActiveNewline and a space for every other variant. -/
def new_line (state : State) (variant : Token) : State × List Char :=
  let p1 := close_top_header state
  let p2 := close_lower_header p1.1
  (p2.1, p1.2 ++ p2.2 ++ [if variant = Token.activeNewline then '\n' else ' '])

/-- The match in transpile_markdown's loop body: the wildcard arm appends
the matched slice verbatim (Text, UnorderedList, Link, Codeblock). -/
def processToken (state : State) (variant : Token) (slice : List Char) : State × List Char :=
  match variant with
  | Token.bold => wrap_bold state
  | Token.italic => wrap_italic state
  | Token.underline => wrap_underline state
  | Token.topHeader => open_top_header state
  | Token.lowerHeader => open_lower_header state
  | Token.removableNewline => new_line state Token.removableNewline
  | Token.activeNewline => new_line state Token.activeNewline
  | Token.tag => (state, [])
  | _ => (state, slice)

/-- The `if let Ok(variant)` in the loop: error items are skipped. -/
def processItem (state : State) : LexItem → State × List Char
  | LexItem.ok t slice => processToken state t slice
  | LexItem.err _ => (state, [])

def runItems (state : State) : List LexItem → State × List Char
  | [] => (state, [])
  | item :: rest =>
    let p := processItem state item
    let q := runItems p.1 rest
    (q.1, p.2 ++ q.2)

/-- fn transpile_markdown: lex, render every Ok token from a fresh default
state, and push one final line feed. -/
def transpile_markdown (input : List Char) : List Char :=
  (runItems State.default (tokenize input)).2 ++ ['\n']

/-!  Helper lemmas about the lexer functions. -/

lemma getLast_append_single {α : Type} (l : List α) (a : α) :
    (l ++ [a]).getLast? = some a := by
  induction l with
  | nil => rfl
  | cons c r ih =>
    rcases hr : r ++ [a] with _ | ⟨d, t⟩
    · exact absurd hr (by simp)
    · rw [List.cons_append, hr, List.getLast?_cons_cons, ← hr, ih]

lemma takeLine_all (l : List Char) (h : '\n' ∉ l) : takeLine l = l := by
  induction l with
  | nil => rfl
  | cons c r ih =>
    have hc : ¬ c = '\n' := fun e => h (by rw [e]; exact List.mem_cons_self _ _)
    simp only [takeLine, if_neg hc]
    rw [ih (fun m => h (List.mem_cons_of_mem _ m))]

lemma lastBrace_concat (l : List Char) : lastBrace (l ++ ['}']) = some l.length := by
  induction l with
  | nil => rfl
  | cons c r ih =>
    have hstep : lastBrace ((c :: r) ++ ['}']) =
        match lastBrace (r ++ ['}']) with
        | some i => some (i + 1)
        | none => if c = '}' then some 0 else none := rfl
    rw [hstep, ih]
    simp

lemma matchBold_none (c : Char) (s : List Char) (h : ('*' : Char) ≠ c) :
    matchBold (c :: s) = none := by
  simp [matchBold, startsWith, h]

lemma matchItalic_none (c : Char) (s : List Char) (h : ('*' : Char) ≠ c) :
    matchItalic (c :: s) = none := by
  simp [matchItalic, startsWith, h]

lemma matchUnderline_none (c : Char) (s : List Char) (h : ('_' : Char) ≠ c) :
    matchUnderline (c :: s) = none := by
  simp [matchUnderline, startsWith, h]

lemma matchTopHeader_none (c : Char) (s : List Char) (h : ¬ c = '#') :
    matchTopHeader (c :: s) = none := by
  simp [matchTopHeader, h]

lemma matchLowerHeader_none (c : Char) (s : List Char) (h : ¬ c = '#') :
    matchLowerHeader (c :: s) = none := by
  simp [matchLowerHeader, hashRun, h]

lemma matchTag_none (c : Char) (s : List Char) (h1 : ¬ c = '{') (h2 : ¬ c = ' ') :
    matchTag (c :: s) = none := by
  simp [matchTag, h1, h2]

lemma matchRemovableNewline_none (c : Char) (s : List Char) (h : ('\n' : Char) ≠ c) :
    matchRemovableNewline (c :: s) = none := by
  simp [matchRemovableNewline, startsWith, h]

lemma matchActiveNewline_none (c : Char) (s : List Char) (h : ('\n' : Char) ≠ c) :
    matchActiveNewline (c :: s) = none := by
  simp [matchActiveNewline, startsWith, h]

lemma matchText_none (c : Char) (s : List Char) (h : exclText c) :
    matchText (c :: s) = none := by
  simp [matchText, h]

lemma matchText_some (c : Char) (s : List Char) (h : ¬ exclText c) :
    matchText (c :: s) = some 1 := by
  simp [matchText, h]

lemma matchUnorderedList_none (c : Char) (s : List Char)
    (h : ¬ (c = '-' ∨ c = '*' ∨ c = '+')) : matchUnorderedList (c :: s) = none := by
  cases s with
  | nil => rfl
  | cons b r => simp [matchUnorderedList, h]

lemma matchLink_none (c : Char) (s : List Char) (h : ¬ c = '[') :
    matchLink (c :: s) = none := by
  simp [matchLink, h]

lemma cbCore_none (c : Char) (s : List Char) (h : TICK ≠ c) :
    cbCore (c :: s) = none := by
  simp [cbCore, startsWith, h]

lemma matchCodeblock_none (c : Char) (s : List Char) (h1 : ¬ c = '\n') (h2 : TICK ≠ c) :
    matchCodeblock (c :: s) = none := by
  simp [matchCodeblock, h1, cbCore_none c s h2]

/-- At a position whose head character is one of the characters matched
by no rule at all, the whole lexer fails, whatever follows. -/
lemma bestMatch_skipChar (c : Char) (s : List Char)
    (h1 : ('*' : Char) ≠ c) (h2 : ('_' : Char) ≠ c) (h3 : ¬ c = '#') (h4 : ¬ c = '{')
    (h5 : ¬ c = ' ') (h6 : ('\n' : Char) ≠ c) (h7 : ¬ (c = '-' ∨ c = '*' ∨ c = '+'))
    (h8 : ¬ c = '[') (h9 : TICK ≠ c) (h10 : exclText c) :
    bestMatch (c :: s) = none := by
  simp [bestMatch, ruleMatches, pick,
    matchBold_none c s h1, matchItalic_none c s h1, matchUnderline_none c s h2,
    matchTopHeader_none c s h3, matchLowerHeader_none c s h3, matchTag_none c s h4 h5,
    matchRemovableNewline_none c s h6, matchActiveNewline_none c s h6,
    matchText_none c s h10, matchUnorderedList_none c s h7, matchLink_none c s h8,
    matchCodeblock_none c s (Ne.symm h6) h9]

lemma skip_no_match (c : Char) (s : List Char)
    (hc : c = '\t' ∨ c = CR ∨ c = FF ∨ c = '(' ∨ c = ')') :
    bestMatch (c :: s) = none := by
  rcases hc with rfl | rfl | rfl | rfl | rfl <;>
    exact bestMatch_skipChar _ s (by decide) (by decide) (by decide) (by decide)
      (by decide) (by decide) (by decide) (by decide) (by decide) (by decide)

/-!  Claim theorems. -/

/-- Claim C1 (code evaluated at the failing input): the ActiveNewline rule
is declared with a token attribute, so it matches only the literal five
characters newline-brace-2-comma-brace; a run of two newlines is lexed as
two RemovableNewline tokens and rendered as two space bytes, not as one
ActiveNewline rendering one line feed. -/
theorem active_newline_literal_eval :
    tokenize ['\n', '\n'] =
      [LexItem.ok Token.removableNewline ['\n'], LexItem.ok Token.removableNewline ['\n']] ∧
    transpile_markdown ['\n', '\n'] = [' ', ' ', '\n'] ∧
    tokenize ['\n', '{', '2', ',', '}'] =
      [LexItem.ok Token.activeNewline ['\n', '{', '2', ',', '}']] := by
  decide

/-- Claim C2 (code evaluated at the failing input): on the input
hash-space-Header text-newline, the RemovableNewline arm appends a space
byte after the header-close sequence, so a space sits between the close
sequence's newline and the final appended newline, contrary to the claim
and to the repository's own top_header_transpiles test. -/
theorem top_header_space_eval :
    transpile_markdown ['#', ' ', 'H', 'e', 'a', 'd', 'e', 'r', ' ', 't', 'e', 'x', 't', '\n'] =
      ['\n', '\n', ESC, 'E', ESC, 'w', '1', ESC, 'W', '1',
       'H', 'e', 'a', 'd', 'e', 'r', ' ', 't', 'e', 'x', 't',
       ESC, 'F', ESC, 'w', '0', ESC, 'W', '0', '\n', ' ', '\n'] ∧
    transpile_markdown ['#', ' ', 'H', 'e', 'a', 'd', 'e', 'r', ' ', 't', 'e', 'x', 't', '\n'] ≠
      ['\n', '\n', ESC, 'E', ESC, 'w', '1', ESC, 'W', '1',
       'H', 'e', 'a', 'd', 'e', 'r', ' ', 't', 'e', 'x', 't',
       ESC, 'F', ESC, 'w', '0', ESC, 'W', '0', '\n', '\n'] := by
  decide

/-- Claim C4: a Bold, Italic or Underline token flips exactly its own flag
and emits exactly the open code on the off-to-on transition and the close
code on the on-to-off transition, with the exact byte values 0x1B E / 0x1B
F, 0x1B 4 / 0x1B 5, 0x1B - 1 / 0x1B - 0; no other flag changes. -/
theorem wrap_toggle_flags (st : State) (slice : List Char) :
    processToken st Token.bold slice = wrap_bold st ∧
    processToken st Token.italic slice = wrap_italic st ∧
    processToken st Token.underline slice = wrap_underline st ∧
    wrap_bold st =
      ({ st with bold := !st.bold },
        if st.bold then [Char.ofNat 27, 'F'] else [Char.ofNat 27, 'E']) ∧
    wrap_italic st =
      ({ st with italic := !st.italic },
        if st.italic then [Char.ofNat 27, '5'] else [Char.ofNat 27, '4']) ∧
    wrap_underline st =
      ({ st with underline := !st.underline },
        if st.underline then [Char.ofNat 27, '-', '0'] else [Char.ofNat 27, '-', '1']) := by
  obtain ⟨t, l, b, i, u⟩ := st
  cases b <;> cases i <;> cases u <;>
    simp [processToken, wrap_bold, wrap_italic, wrap_underline,
      boldOn, boldOff, italicOn, italicOff, underlineOn, underlineOff, ESC]

/-- Claim C5: on either newline variant, new_line closes both header
environments (emitting the close codes exactly for the open ones and
clearing both flags) and leaves the bold, italic and underline flags
untouched. -/
theorem newline_closes_headers (st : State) (v : Token)
    (hv : v = Token.removableNewline ∨ v = Token.activeNewline) :
    (new_line st v).1 = { st with top_header := false, lower_header := false } ∧
    (new_line st v).2 =
      (if st.top_header then topHeaderCloseSeq else []) ++
      (if st.lower_header then lowerHeaderCloseSeq else []) ++
      [if v = Token.activeNewline then '\n' else ' '] := by
  obtain ⟨t, l, b, i, u⟩ := st
  cases t <;> cases l <;>
    simp [new_line, close_top_header, close_lower_header]

/-- Claim C5 witness: a state with both headers open and the removable
variant. -/
theorem newline_closes_headers_witness :
    (new_line ⟨true, true, true, false, true⟩ Token.removableNewline).1 =
      ⟨false, false, true, false, true⟩ ∧
    (new_line ⟨true, true, true, false, true⟩ Token.removableNewline).2 =
      topHeaderCloseSeq ++ lowerHeaderCloseSeq ++ [' '] := by
  have h := newline_closes_headers ⟨true, true, true, false, true⟩
    Token.removableNewline (Or.inl rfl)
  simpa using h

/-- Claim C7: the output of every transpile call is the rendered body plus
exactly one final line feed pushed after the last token, so every output
ends with a line feed, and the empty input yields just that line feed. -/
theorem unconditional_trailing_line_feed :
    (∀ input : List Char,
      transpile_markdown input = (runItems State.default (tokenize input)).2 ++ ['\n'] ∧
      (transpile_markdown input).getLast? = some '\n') ∧
    transpile_markdown [] = ['\n'] := by
  exact ⟨fun input => ⟨rfl, getLast_append_single _ _⟩, by decide⟩

/-- Claim C8: UnorderedList and Codeblock tokens are appended verbatim
with no state change at all, so a newline inside their slice emits no
header-close codes; concretely, a top header opened before a list item
stays open across the list item's newline to the end of input. -/
theorem list_codeblock_keep_headers_open :
    (∀ (st : State) (sl : List Char),
      processToken st Token.unorderedList sl = (st, sl) ∧
      processToken st Token.codeblock sl = (st, sl)) ∧
    tokenize ['#', ' ', 'a', '-', ' ', 'b', '\n', 'c'] =
      [LexItem.ok Token.topHeader ['#', ' '], LexItem.ok Token.text ['a'],
       LexItem.ok Token.unorderedList ['-', ' ', 'b', '\n'], LexItem.ok Token.text ['c']] ∧
    (runItems State.default (tokenize ['#', ' ', 'a', '-', ' ', 'b', '\n', 'c'])).1.top_header
      = true ∧
    transpile_markdown ['#', ' ', 'a', '-', ' ', 'b', '\n', 'c'] =
      ['\n', '\n', ESC, 'E', ESC, 'w', '1', ESC, 'W', '1', 'a', '-', ' ', 'b', '\n', 'c', '\n']
    := by
  exact ⟨fun st sl => ⟨rfl, rfl⟩, by decide, by decide, by decide⟩

/-- At a single character outside the Text rule's excluded class, only the
Text rule can match, with length one. -/
lemma bestMatch_single_text (c : Char) (h : ¬ exclText c) :
    bestMatch [c] = some (Token.text, 1) := by
  have hstar : ('*' : Char) ≠ c :=
    fun e => h (Or.inr (Or.inr (Or.inl e.symm)))
  have hund : ('_' : Char) ≠ c :=
    fun e => h (Or.inr (Or.inr (Or.inr (Or.inl e.symm))))
  have hhash : ¬ c = '#' :=
    fun e => h (Or.inr (Or.inr (Or.inr (Or.inr (Or.inl e)))))
  have hnl : ('\n' : Char) ≠ c :=
    fun e => h (Or.inr (Or.inr (Or.inr (Or.inr (Or.inr (Or.inl e.symm))))))
  have hB : matchBold [c] = none := by simp [matchBold, startsWith]
  have hU : matchUnderline [c] = none := by simp [matchUnderline, startsWith]
  have hA : matchActiveNewline [c] = none := by simp [matchActiveNewline, startsWith]
  have hI : matchItalic [c] = none := matchItalic_none c [] hstar
  have hR : matchRemovableNewline [c] = none := matchRemovableNewline_none c [] hnl
  have hTh : matchTopHeader [c] = none := matchTopHeader_none c [] hhash
  have hLh : matchLowerHeader [c] = none := matchLowerHeader_none c [] hhash
  have hTag : matchTag [c] = none := by
    by_cases hbr : c = '{'
    · subst hbr; decide
    · by_cases hsp : c = ' '
      · subst hsp; decide
      · exact matchTag_none c [] hbr hsp
  have hLink : matchLink [c] = none := by
    by_cases hsq : c = '['
    · subst hsq; decide
    · exact matchLink_none c [] hsq
  have hUL : matchUnorderedList [c] = none := rfl
  have hcb : cbCore [c] = none := by simp [cbCore, startsWith]
  have hCB : matchCodeblock [c] = none := by simp [matchCodeblock, Ne.symm hnl, hcb]
  have hText : matchText [c] = some 1 := matchText_some c [] h
  simp [bestMatch, ruleMatches, pick, hB, hU, hA, hI, hR, hTh, hLh, hTag, hLink, hUL,
    hCB, hText]

/-- Claim C3 counterexample: a lone opening parenthesis is matched by no
rule (the Text class excludes it), so it is dropped from the output
instead of passing through as a Text token. -/
theorem lparen_dropped_not_text :
    tokenize ['('] = [LexItem.err ['(']] ∧
    transpile_markdown ['('] = ['\n'] ∧ '(' ∉ transpile_markdown ['('] := by
  decide

/-- Claim C3 as amended: a single character outside the Text rule's
excluded class (everything except the nine characters left-paren,
right-paren, star, underscore, hash, newline, carriage return, tab and
form feed) that no longer rule consumes is lexed as a Text token and
passed through verbatim; characters of the excluded class with no rule of
their own are silently dropped. -/
theorem text_chars_pass_through (c : Char) (h : ¬ exclText c) :
    tokenize [c] = [LexItem.ok Token.text [c]] ∧
    transpile_markdown [c] = [c, '\n'] := by
  have hbm := bestMatch_single_text c h
  have htok : tokenize [c] = [LexItem.ok Token.text [c]] := by
    show tokenizeF (0 + 1) [c] = _
    simp [tokenizeF, hbm]
  refine ⟨htok, ?_⟩
  show (runItems State.default (tokenize [c])).2 ++ ['\n'] = [c, '\n']
  rw [htok]
  rfl

/-- Claim C3 witness: an ordinary letter passes through as Text. -/
theorem text_chars_pass_through_witness :
    ¬ exclText 'a' ∧ tokenize ['a'] = [LexItem.ok Token.text ['a']] ∧
    transpile_markdown ['a'] = ['a', '\n'] := by
  have h : ¬ exclText 'a' := by decide
  exact ⟨h, (text_chars_pass_through 'a' h).1, (text_chars_pass_through 'a' h).2⟩

/-- Claim C6: transpile_markdown is a total function; a position where the
lexer matches no rule becomes an Err item, which the render loop skips,
appending nothing and leaving the state unchanged, so an input made only
of unmatched characters transpiles to just the final line feed. -/
theorem lex_errors_skipped :
    (∀ (st : State) (sl : List Char), processItem st (LexItem.err sl) = (st, [])) ∧
    (∀ input : List Char,
      (∀ c ∈ input, c = '\t' ∨ c = CR ∨ c = FF ∨ c = '(' ∨ c = ')') →
      transpile_markdown input = ['\n']) := by
  constructor
  · intro st sl; rfl
  · have htok : ∀ input : List Char,
        (∀ c ∈ input, c = '\t' ∨ c = CR ∨ c = FF ∨ c = '(' ∨ c = ')') →
        tokenizeF input.length input = input.map (fun c => LexItem.err [c]) := by
      intro input
      induction input with
      | nil => intro _; rfl
      | cons c rest ih =>
        intro h
        have hc := h c (List.mem_cons_self _ _)
        have hstep : tokenizeF (c :: rest).length (c :: rest) =
            LexItem.err [c] :: tokenizeF rest.length rest := by
          show tokenizeF (rest.length + 1) (c :: rest) = _
          simp [tokenizeF, skip_no_match c rest hc]
        rw [hstep, ih (fun d hd => h d (List.mem_cons_of_mem _ hd))]
        rfl
    have hrun : ∀ (l : List Char) (st : State),
        runItems st (l.map (fun c => LexItem.err [c])) = (st, []) := by
      intro l
      induction l with
      | nil => intro st; rfl
      | cons c rest ih => intro st; simp [runItems, processItem, ih]
    intro input h
    show (runItems State.default (tokenize input)).2 ++ ['\n'] = ['\n']
    rw [show tokenize input = input.map (fun c => LexItem.err [c]) from htok input h,
      hrun]
    rfl

/-- Claim C6 witness: a mix of unmatched characters yields only the final
line feed. -/
theorem lex_errors_skipped_witness :
    transpile_markdown ['\t', '(', ')'] = ['\n'] :=
  lex_errors_skipped.2 ['\t', '(', ')'] (by decide)

/-- Claim C9: the Tag rule is greedy across the line: an input that opens
with a brace and ends at the last closing brace of a newline-free span is
consumed as one single Tag token, whatever braces occur inside, and a Tag
token renders to nothing, so only the final line feed is emitted. -/
theorem tag_greedy_across_line (mid : List Char) (h : '\n' ∉ mid) :
    tokenize ('{' :: (mid ++ ['}'])) = [LexItem.ok Token.tag ('{' :: (mid ++ ['}']))] ∧
    transpile_markdown ('{' :: (mid ++ ['}'])) = ['\n'] := by
  have hnl : '\n' ∉ mid ++ ['}'] := by
    simp only [List.mem_append, List.mem_singleton]
    rintro (hm | he)
    · exact h hm
    · exact absurd he (by decide)
  have htag : matchTag ('{' :: (mid ++ ['}'])) = some (mid.length + 2) := by
    simp [matchTag, takeLine_all _ hnl, lastBrace_concat]
  have htext : matchText ('{' :: (mid ++ ['}'])) = some 1 := matchText_some _ _ (by decide)
  have hB := matchBold_none '{' (mid ++ ['}']) (by decide)
  have hI := matchItalic_none '{' (mid ++ ['}']) (by decide)
  have hU := matchUnderline_none '{' (mid ++ ['}']) (by decide)
  have hTh := matchTopHeader_none '{' (mid ++ ['}']) (by decide)
  have hLh := matchLowerHeader_none '{' (mid ++ ['}']) (by decide)
  have hR := matchRemovableNewline_none '{' (mid ++ ['}']) (by decide)
  have hA := matchActiveNewline_none '{' (mid ++ ['}']) (by decide)
  have hUL := matchUnorderedList_none '{' (mid ++ ['}']) (by decide)
  have hLink := matchLink_none '{' (mid ++ ['}']) (by decide)
  have hCB := matchCodeblock_none '{' (mid ++ ['}']) (by decide) (by decide)
  have hlt : ¬ (mid.length + 2 < 1) := by omega
  have hbm : bestMatch ('{' :: (mid ++ ['}'])) = some (Token.tag, mid.length + 2) := by
    simp [bestMatch, ruleMatches, pick, htag, htext, hB, hI, hU, hTh, hLh, hR, hA, hUL,
      hLink, hCB, hlt]
  have hlen : ('{' :: (mid ++ ['}'])).length = mid.length + 2 := by simp
  have htake : ('{' :: (mid ++ ['}'])).take (mid.length + 2) = '{' :: (mid ++ ['}']) := by
    rw [← hlen]; exact List.take_length _
  have hdrop : ('{' :: (mid ++ ['}'])).drop (mid.length + 2) = [] := by
    rw [← hlen]; exact List.drop_length _
  have htok : tokenize ('{' :: (mid ++ ['}'])) =
      [LexItem.ok Token.tag ('{' :: (mid ++ ['}']))] := by
    show tokenizeF ('{' :: (mid ++ ['}'])).length ('{' :: (mid ++ ['}'])) = _
    rw [hlen]
    show tokenizeF (mid.length + 1 + 1) ('{' :: (mid ++ ['}'])) = _
    simp [tokenizeF, hbm, htake, hdrop]
  refine ⟨htok, ?_⟩
  show (runItems State.default (tokenize ('{' :: (mid ++ ['}'])))).2 ++ ['\n'] = ['\n']
  rw [htok]
  rfl

/-- Claim C9 witness: exactly the input of the claim, with two brace
groups and text between them, transpiles to a single line feed. -/
theorem tag_greedy_across_line_witness :
    tokenize ['{', 'a', '}', ' ', 'm', 'i', 'd', ' ', '{', 'b', '}'] =
      [LexItem.ok Token.tag ['{', 'a', '}', ' ', 'm', 'i', 'd', ' ', '{', 'b', '}']] ∧
    transpile_markdown ['{', 'a', '}', ' ', 'm', 'i', 'd', ' ', '{', 'b', '}'] = ['\n'] :=
  tag_greedy_across_line ['a', '}', ' ', 'm', 'i', 'd', ' ', '{', 'b'] (by decide)

/-- Claim C10: a tab, carriage return or form feed at the head of any
remaining input matches no rule at all (whatever follows), so standing
alone it contributes nothing but the final line feed to the output. -/
theorem tab_cr_ff_match_nothing (c : Char) (s : List Char)
    (hc : c = '\t' ∨ c = CR ∨ c = FF) :
    bestMatch (c :: s) = none ∧ transpile_markdown [c] = ['\n'] := by
  have h5 : c = '\t' ∨ c = CR ∨ c = FF ∨ c = '(' ∨ c = ')' := by tauto
  refine ⟨skip_no_match c s h5, ?_⟩
  rcases hc with rfl | rfl | rfl <;> decide

/-- Claim C10 witness: the tab input of the claim. -/
theorem tab_cr_ff_match_nothing_witness :
    bestMatch ['\t'] = none ∧ transpile_markdown ['\t'] = ['\n'] :=
  tab_cr_ff_match_nothing '\t' [] (Or.inl rfl)
